import Mathlib

/-!
Shallow embedding of the kanban repository's storage layer
(src/app/storage.py) and of the task routes that shape its outputs
(src/app/routes/tasks.py), together with theorems settling the spec's
claims about them.

Modelling conventions:
* A persisted record (one JSON object of the stored list) is an
  association list `List (String × JVal)` with pairwise-distinct keys,
  mirroring a Python dict's items in insertion order; `getKey` is dict
  indexing and `setKey` is dict assignment (replace in place, else append).
* Datetime values are represented by their ISO strings: the code converts
  `datetime` objects with `.isoformat()` before writing, so update maps in
  the model carry the already-serialized `JVal`.
* The current clock reading (`datetime.utcnow().isoformat()`) is passed in
  explicitly as a `now : String` argument.
-/

namespace Kanban

/-- JSON-like scalar values held in stored records.  `storage.py` persists
dicts whose values are strings, null, numbers or booleans; datetimes are
serialized to ISO strings before they reach the file. -/
inductive JVal where
  | null
  | str (s : String)
  | int (n : Int)
  | bool (b : Bool)
deriving DecidableEq, Repr

/-- A stored record: a Python dict as an association list in insertion
order with pairwise-distinct keys. -/
abbrev Record := List (String × JVal)

/-- Dict indexing `item[k]`: the value at the first occurrence of key `k`,
`none` when the key is absent. -/
def getKey : Record → String → Option JVal
  | [], _ => none
  | (k', v) :: rest, k => if k' = k then some v else getKey rest k

/-- Dict assignment `item[k] = v`: replace the binding of `k` in place if
present, otherwise append it (Python dicts keep insertion order). -/
def setKey : Record → String → JVal → Record
  | [], k, v => [(k, v)]
  | (k', v') :: rest, k, v =>
      if k' = k then (k, v) :: rest else (k', v') :: setKey rest k v

/-- The update-merge loop of `TaskStorage.update` (src/app/storage.py
lines 85-90): `for key, value in updates.items(): if value is not None:
item[key] = value`.  A `null` value means "leave unchanged". -/
def applyUpdates (item : Record) : List (String × JVal) → Record
  | [] => item
  | (k, v) :: rest =>
      applyUpdates (if v = JVal.null then item else setKey item k v) rest

namespace TaskStorage

/-- The record-locating loop of `TaskStorage.update` (src/app/storage.py
lines 82-93): scan for the first item whose `id` equals `tid`; on a hit,
merge the updates, refresh `updated_at` to `now`, and return the updated
record together with the full list to be written back.  `none` when no
record matches (the code then skips the write and returns `None`). -/
def updateFind (tid : String) (updates : List (String × JVal)) (now : String) :
    List Record → Option (Record × List Record)
  | [] => none
  | item :: rest =>
      if getKey item "id" = some (JVal.str tid) then
        let item' := setKey (applyUpdates item updates) "updated_at" (JVal.str now)
        some (item', item' :: rest)
      else
        match updateFind tid updates now rest with
        | none => none
        | some (r, rest') => some (r, item :: rest')

/-- `TaskStorage.update` (src/app/storage.py lines 79-94): returns the
updated record (or `none` for NotFound) together with the collection
persisted afterwards; on the `none` path no write occurs, so the stored
collection is returned unchanged. -/
def update (data : List Record) (tid : String) (updates : List (String × JVal))
    (now : String) : Option Record × List Record :=
  match updateFind tid updates now data with
  | none => (none, data)
  | some (item', data') => (some item', data')

/-- `TaskStorage.get_by_id` (src/app/storage.py lines 54-60): first task
whose `id` matches, else `None`. -/
def get_by_id (data : List Record) (tid : String) : Option Record :=
  data.find? (fun item => getKey item "id" = some (JVal.str tid))

/-- `TaskStorage.delete` (src/app/storage.py lines 96-104): filter out the
matching records and report whether the collection shrank; a write happens
only in that case, but when nothing shrank the filtered list equals the
original, so the resulting file contents coincide either way. -/
def delete (data : List Record) (tid : String) : Bool × List Record :=
  let remaining := data.filter (fun item => getKey item "id" ≠ some (JVal.str tid))
  if remaining.length < data.length then (true, remaining) else (false, data)

/-- `TaskStorage.move` (src/app/storage.py lines 106-108): delegates to
`update` with the single field `column`; `position` is accepted and
ignored. -/
def move (data : List Record) (tid : String) (column : String)
    (position : Option Int) (now : String) : Option Record × List Record :=
  update data tid [("column", JVal.str column)] now

/-- `TaskStorage.create` (src/app/storage.py lines 67-77): append the
serialized task dict and persist; returns the task unchanged.  Datetime
fields are already ISO strings in the model, so the serialization loop is
the identity here. -/
def create (data : List Record) (task : Record) : Record × List Record :=
  (task, data ++ [task])

end TaskStorage

/-- The possible states of a store's backing file as seen by
`JSONStorage._read_data` (src/app/storage.py lines 27-34): the file may be
missing (`FileNotFoundError`), may hold bytes that fail to deserialize
(`json.JSONDecodeError`), or may hold a well-formed list of records. -/
inductive FileState where
  | missing
  | corrupt
  | good (data : List Record)
deriving DecidableEq, Repr

/-- `JSONStorage._read_data` (src/app/storage.py lines 27-34): returns the
deserialized list, degrading to the empty collection on a missing file or
a deserialization failure instead of propagating the exception. -/
def readData : FileState → List Record
  | FileState.missing => []
  | FileState.corrupt => []
  | FileState.good data => data

/-- `COLUMNS` from src/app/config.py line 24. -/
def COLUMNS : List String := ["Recurring", "Backlog", "In Progress", "Review", "Done"]

/-- One iteration of the board loop in `get_board` (src/app/routes/tasks.py
lines 60-62): `if task.column in board: board[task.column].append(task)` —
append the task to the bucket keyed by its column, or drop it when its
column is not a key of the board. -/
def boardInsert (board : List (String × List Record)) (t : Record) :
    List (String × List Record) :=
  board.map (fun p =>
    if getKey t "column" = some (JVal.str p.1) then (p.1, p.2 ++ [t]) else p)

/-- `get_board` (src/app/routes/tasks.py lines 54-64): start from
`{col: [] for col in COLUMNS}` and fold the board loop over all tasks.
The board dict is modelled as an association list in key insertion order. -/
def getBoard (tasks : List Record) : List (String × List Record) :=
  tasks.foldl boardInsert (COLUMNS.map (fun c => (c, [])))

/-- Code-point comparison of characters. -/
def charLeB (a b : Char) : Bool := a.toNat ≤ b.toNat

/-- Lexicographic code-point comparison of character lists: the order
Python's `sorted` uses on strings. -/
def strDataLeB : List Char → List Char → Bool
  | [], _ => true
  | _ :: _, [] => false
  | a :: as, b :: bs => if a = b then strDataLeB as bs else charLeB a b

/-- Lexicographic code-point comparison of strings. -/
def strLeB (a b : String) : Bool := strDataLeB a.data b.data

/-- Insertion of a string into a lexicographically sorted list. -/
def insertSorted (s : String) : List String → List String
  | [] => [s]
  | x :: xs => if strLeB s x then s :: x :: xs else x :: insertSorted s xs

/-- Python's `sorted` on a list of strings (insertion sort; the order is
total so the result is the lexicographically sorted permutation). -/
def sortStrings (l : List String) : List String := l.foldr insertSorted []

/-- The generator `t.category for t in tasks if t.category` inside
`get_categories` (src/app/routes/tasks.py line 50): keep exactly the
truthy category values, i.e. drop `None` and the empty string. -/
def taskCategories (tasks : List Record) : List String :=
  tasks.filterMap (fun t =>
    match getKey t "category" with
    | some (JVal.str s) => if s = "" then none else some s
    | _ => none)

/-- `get_categories` (src/app/routes/tasks.py lines 46-51):
`sorted(set(t.category for t in tasks if t.category))` — the distinct
truthy task categories, sorted.  Note: this route reads only the task
collection; it consults no stored category names. -/
def getCategories (tasks : List Record) : List String :=
  sortStrings (taskCategories tasks).dedup

/-- Modelled from the spec: the Category Repository (`CategoryStorage`) is
absent from src/ (only src/tests/test_categories.py exercises it).  Per
§4.4, `getAll()` returns the sorted sequence of explicitly stored category
names; the stored names are modelled as the list held in the category
store's file. -/
def CategoryStorage.get_all (stored : List String) : List String :=
  sortStrings stored

/-- Modelled from the spec: the effective category listing of §4.4 — "the
union, de-duplicated, sorted" of explicitly stored categories and the task
collection's distinct `category` values. -/
def effectiveCategoriesSpec (stored : List String) (tasks : List Record) : List String :=
  sortStrings ((stored ++ taskCategories tasks).dedup)

/-- A user record (src/app/models.py lines 52-57). -/
structure UserRec where
  username : String
  hashed_password : String
  disabled : Bool
  is_admin : Bool
deriving DecidableEq, Repr

namespace UserStorage

/-- `UserStorage.get_by_username` (src/app/storage.py lines 117-123):
first record with the given username, else `None`. -/
def get_by_username (data : List UserRec) (username : String) : Option UserRec :=
  data.find? (fun u => u.username = username)

/-- `UserStorage.create` (src/app/storage.py lines 125-130): append and
persist, no uniqueness check at this layer. -/
def create (data : List UserRec) (user : UserRec) : UserRec × List UserRec :=
  (user, data ++ [user])

/-- `UserStorage.exists` (src/app/storage.py lines 132-134). -/
def userExists (data : List UserRec) (username : String) : Bool :=
  (get_by_username data username).isSome

/-- Modelled from the spec: `UserStorage.list_all` is called by
src/app/routes/auth.py line 68 but is not defined in src/app/storage.py.
Per §4.3, `listAll() -> all users`. -/
def list_all (data : List UserRec) : List UserRec :=
  data

/-- Modelled from the spec: `UserStorage.update` is called by
src/app/routes/auth.py line 118 but is not defined in src/app/storage.py.
Per §4.3, `update(user)` is a full-record replace keyed by `username`. -/
def update (data : List UserRec) (user : UserRec) : List UserRec :=
  data.map (fun u => if u.username = user.username then user else u)

/-- Modelled from the spec: `UserStorage.delete` is called by
src/app/routes/auth.py line 99 but is not defined in src/app/storage.py.
Per §4.3, `delete(username) -> bool`: remove the matching record and
report whether anything was removed (same shape as `TaskStorage.delete`). -/
def delete (data : List UserRec) (username : String) : Bool × List UserRec :=
  let remaining := data.filter (fun u => u.username ≠ username)
  if remaining.length < data.length then (true, remaining) else (false, data)

end UserStorage

/-!
Concurrency model of the document store.

`JSONStorage._read_data` holds the store's lock only while reading the
file (src/app/storage.py lines 29-34) and `_write_data` holds it only
while writing (lines 38-40); no lock spans the load-modify-save cycle of a
mutating operation such as `TaskStorage.update` (lines 79-94).  A thread
executing `update` therefore decomposes into two atomic actions: a locked
read snapshotting the whole file, then a locked write storing the locally
modified copy (no write when the id was not found).  Interleavings of two
such threads are modelled by a schedule choosing which thread performs its
next atomic action. -/

/-- The arguments of one in-flight `TaskStorage.update` call. -/
structure UpdateOp where
  tid : String
  updates : List (String × JVal)
  now : String
deriving Repr

/-- Progress of a thread through its update call: before its locked read,
holding a local snapshot of the file, or finished. -/
inductive Phase where
  | ready
  | readDone (localData : List Record)
  | finished
deriving DecidableEq, Repr

/-- A configuration: the file contents plus each thread's phase. -/
structure Conf where
  file : List Record
  t1 : Phase
  t2 : Phase
deriving DecidableEq, Repr

/-- One atomic action of a thread executing `TaskStorage.update op`: from
`ready`, the locked `_read_data` snapshots the file; from `readDone`, the
thread merges its updates into its snapshot and the locked `_write_data`
stores the result (no write when the id was absent from the snapshot). -/
def threadStep (op : UpdateOp) (file : List Record) : Phase → Phase × List Record
  | Phase.ready => (Phase.readDone file, file)
  | Phase.readDone localData =>
      match TaskStorage.updateFind op.tid op.updates op.now localData with
      | none => (Phase.finished, file)
      | some (_, newData) => (Phase.finished, newData)
  | Phase.finished => (Phase.finished, file)

/-- Scheduler step: `false` steps thread 1, `true` steps thread 2. -/
def schedStep (op1 op2 : UpdateOp) (c : Conf) (who : Bool) : Conf :=
  if who then
    let s := threadStep op2 c.file c.t2
    { file := s.2, t1 := c.t1, t2 := s.1 }
  else
    let s := threadStep op1 c.file c.t1
    { file := s.2, t1 := s.1, t2 := c.t2 }

/-- Run a schedule from both threads ready on the given file contents. -/
def runSched (op1 op2 : UpdateOp) (file : List Record) (sched : List Bool) : Conf :=
  sched.foldl (schedStep op1 op2) { file := file, t1 := Phase.ready, t2 := Phase.ready }

/-- The `title` field of the stored task with the given id. -/
def titleOf (data : List Record) (tid : String) : Option JVal :=
  (TaskStorage.get_by_id data tid).bind (fun r => getKey r "title")

/-- The value the update-merge loop leaves at key `k`: the last non-null
binding of `k` in the update map, if any (bindings to null are skipped by
the loop, so they neither overwrite nor reset). -/
def updVal : List (String × JVal) → String → Option JVal
  | [], _ => none
  | (k', v) :: rest, k =>
      match updVal rest k with
      | some w => some w
      | none => if k' = k ∧ v ≠ JVal.null then some v else none

/-- The sequence of `id` values of a stored task collection. -/
def idsOf (data : List Record) : List (Option JVal) :=
  data.map (fun r => getKey r "id")

/-- A concrete stored task record used to instantiate theorems: the
serialized form of a `Task` (src/app/models.py lines 33-43). -/
def demoTask : Record :=
  [("id", JVal.str "a"), ("title", JVal.str "T"), ("description", JVal.null),
   ("priority", JVal.str "Medium"), ("category", JVal.str "FromTask"),
   ("due_date", JVal.null), ("column", JVal.str "Backlog"),
   ("created_at", JVal.str "t0"), ("updated_at", JVal.str "t0")]

/-- A second concrete stored task record, with id `b`. -/
def demoTaskB : Record :=
  [("id", JVal.str "b"), ("title", JVal.str "old-b"), ("description", JVal.null),
   ("priority", JVal.str "Low"), ("category", JVal.null),
   ("due_date", JVal.null), ("column", JVal.str "Done"),
   ("created_at", JVal.str "t0"), ("updated_at", JVal.str "t0")]

/-- Thread 1's in-flight call: retitle task `a`. -/
def demoOp1 : UpdateOp :=
  { tid := "a", updates := [("title", JVal.str "new-a")], now := "t1" }

/-- Thread 2's in-flight call: retitle task `b`. -/
def demoOp2 : UpdateOp :=
  { tid := "b", updates := [("title", JVal.str "new-b")], now := "t2" }

/-- A concrete user record used to instantiate theorems. -/
def demoUser : UserRec :=
  { username := "alice", hashed_password := "h1", disabled := false, is_admin := false }

/-- A second concrete user record. -/
def demoUserB : UserRec :=
  { username := "bob", hashed_password := "h2", disabled := false, is_admin := true }

/-- `demoUser` after a password change: same username, new hash. -/
def demoUser2 : UserRec :=
  { username := "alice", hashed_password := "h9", disabled := false, is_admin := false }

/-- A stored task record whose `column` is not one of the configured
columns. -/
def demoTaskBogus : Record :=
  [("id", JVal.str "x"), ("title", JVal.str "stray"), ("description", JVal.null),
   ("priority", JVal.str "Low"), ("category", JVal.null),
   ("due_date", JVal.null), ("column", JVal.str "Bogus"),
   ("created_at", JVal.str "t0"), ("updated_at", JVal.str "t0")]

/-! ### Helper lemmas about dict operations -/

theorem getKey_setKey (k : String) (v : JVal) :
    ∀ (item : Record) (k' : String),
    getKey (setKey item k v) k' = if k' = k then some v else getKey item k'
  | [], k' => by
      simp only [setKey, getKey]
      by_cases h : k' = k
      · simp [h]
      · simp [h, Ne.symm h]
  | (k₀, v₀) :: rest, k' => by
      simp only [setKey]
      by_cases h0 : k₀ = k
      · subst h0
        rw [if_pos rfl]
        by_cases h1 : k' = k₀
        · subst h1; simp [getKey]
        · simp [getKey, h1, Ne.symm h1]
      · rw [if_neg h0]
        by_cases h1 : k₀ = k'
        · subst h1
          simp [getKey, h0]
        · simp [getKey, h1, getKey_setKey k v rest k']

theorem getKey_applyUpdates (k : String) :
    ∀ (ups : List (String × JVal)) (item : Record),
    getKey (applyUpdates item ups) k =
      match updVal ups k with
      | some v => some v
      | none => getKey item k
  | [], item => by simp [applyUpdates, updVal]
  | (k₀, v₀) :: rest, item => by
      simp only [applyUpdates, updVal]
      rw [getKey_applyUpdates k rest]
      cases hrest : updVal rest k with
      | some w => simp
      | none =>
          by_cases hk : k₀ = k
          · by_cases hv : v₀ = JVal.null
            · simp [hk, hv]
            · simp [hk, hv, getKey_setKey]
          · by_cases hv : v₀ = JVal.null
            · simp [hk, hv]
            · simp [hk, hv, getKey_setKey, Ne.symm hk]

theorem updVal_eq_none_of_null {ups : List (String × JVal)} {k : String}
    (h : ∀ v, (k, v) ∈ ups → v = JVal.null) : updVal ups k = none := by
  induction ups with
  | nil => rfl
  | cons p rest ih =>
      obtain ⟨k₀, v₀⟩ := p
      have hrest : updVal rest k = none :=
        ih (fun v hv => h v (List.mem_cons_of_mem _ hv))
      simp only [updVal, hrest]
      by_cases hk : k₀ = k
      · have hv : v₀ = JVal.null := h v₀ (by rw [hk]; exact List.mem_cons_self _ _)
        simp [hk, hv]
      · simp [hk]

theorem updVal_eq_none_of_not_key {ups : List (String × JVal)} {k : String}
    (h : k ∉ ups.map Prod.fst) : updVal ups k = none := by
  induction ups with
  | nil => rfl
  | cons p rest ih =>
      obtain ⟨k₀, v₀⟩ := p
      simp only [List.map_cons, List.mem_cons, not_or] at h
      simp [updVal, ih h.2, Ne.symm h.1]

theorem updVal_eq_some_of_mem {ups : List (String × JVal)} {k : String} {v : JVal}
    (hnodup : (ups.map Prod.fst).Nodup) (hmem : (k, v) ∈ ups) (hv : v ≠ JVal.null) :
    updVal ups k = some v := by
  induction ups with
  | nil => cases hmem
  | cons p rest ih =>
      obtain ⟨k₀, v₀⟩ := p
      simp only [List.map_cons, List.nodup_cons] at hnodup
      rcases List.mem_cons.mp hmem with heq | hrest
      · obtain ⟨hk, hval⟩ := Prod.mk.injEq .. ▸ heq
        have hnone : updVal rest k = none :=
          updVal_eq_none_of_not_key (by rw [← hk] at hnodup; exact hnodup.1)
        simp [updVal, hnone, hk.symm, hval ▸ hv, hval]
      · simp [updVal, ih hnodup.2 hrest]

/-! ### Helper lemmas about the task store operations -/

theorem updateFind_eq_none {tid : String} {ups : List (String × JVal)} {now : String} :
    ∀ {data : List Record}, (∀ r ∈ data, getKey r "id" ≠ some (JVal.str tid)) →
    TaskStorage.updateFind tid ups now data = none := by
  intro data
  induction data with
  | nil => intro _; rfl
  | cons item rest ih =>
      intro h
      have hitem := h item (List.mem_cons_self _ _)
      have hrest := ih (fun r hr => h r (List.mem_cons_of_mem _ hr))
      simp [TaskStorage.updateFind, hitem, hrest]

theorem updateFind_found {tid : String} {ups : List (String × JVal)} {now : String}
    {t : Record} (ht : getKey t "id" = some (JVal.str tid)) :
    ∀ (pre : List Record), (∀ r ∈ pre, getKey r "id" ≠ some (JVal.str tid)) →
    ∀ (post : List Record),
    TaskStorage.updateFind tid ups now (pre ++ t :: post) =
      some (setKey (applyUpdates t ups) "updated_at" (JVal.str now),
            pre ++ setKey (applyUpdates t ups) "updated_at" (JVal.str now) :: post)
  | [], _, post => by simp [TaskStorage.updateFind, ht]
  | r :: pre', hpre, post => by
      have hr := hpre r (List.mem_cons_self _ _)
      have hrec := @updateFind_found tid ups now t ht pre'
        (fun x hx => hpre x (List.mem_cons_of_mem _ hx)) post
      simp [TaskStorage.updateFind, hr, hrec]

theorem updateFind_idsOf {tid : String} {ups : List (String × JVal)} {now : String}
    (hid : ∀ v, ("id", v) ∈ ups → v = JVal.null) :
    ∀ {data : List Record} {t' : Record} {data' : List Record},
    TaskStorage.updateFind tid ups now data = some (t', data') → idsOf data' = idsOf data := by
  intro data
  induction data with
  | nil => intro t' data' h; cases h
  | cons item rest ih =>
      intro t' data' h
      by_cases hitem : getKey item "id" = some (JVal.str tid)
      · simp only [TaskStorage.updateFind, if_pos hitem, Option.some.injEq] at h
        obtain ⟨-, hdata⟩ := Prod.mk.injEq .. ▸ h
        subst hdata
        have hid' : getKey (setKey (applyUpdates item ups) "updated_at" (JVal.str now)) "id"
            = getKey item "id" := by
          rw [getKey_setKey]
          simp only [if_neg (by decide : ¬ ("id" : String) = "updated_at")]
          rw [getKey_applyUpdates]
          simp [updVal_eq_none_of_null hid]
        simp [idsOf, hid']
      · simp only [TaskStorage.updateFind, if_neg hitem] at h
        cases hrec : TaskStorage.updateFind tid ups now rest with
        | none => rw [hrec] at h; cases h
        | some p =>
            obtain ⟨r, rest'⟩ := p
            rw [hrec] at h
            simp only [Option.some.injEq] at h
            obtain ⟨-, hdata⟩ := Prod.mk.injEq .. ▸ h
            subst hdata
            simp [idsOf, List.map_cons]
            exact ih hrec

theorem filter_length_lt_iff {α : Type} (l : List α) (p : α → Bool) :
    (l.filter p).length < l.length ↔ ∃ a ∈ l, ¬ p a := by
  constructor
  · intro h
    by_contra hall
    push_neg at hall
    have : l.filter p = l := List.filter_eq_self.mpr (fun a ha => by
      have := hall a ha
      simpa using this)
    rw [this] at h
    exact Nat.lt_irrefl _ h
  · intro ⟨a, ha, hpa⟩
    rcases Nat.lt_or_ge (l.filter p).length l.length with h | h
    · exact h
    · exfalso
      have heq : l.filter p = l := (List.filter_sublist l).eq_of_length_le h
      have : p a := by
        have := List.filter_eq_self.mp heq a ha
        exact this
      exact hpa this

theorem delete_snd_eq_filter (data : List Record) (tid : String) :
    (TaskStorage.delete data tid).2
      = data.filter (fun item => getKey item "id" ≠ some (JVal.str tid)) := by
  show (if (data.filter (fun item => getKey item "id" ≠ some (JVal.str tid))).length
          < data.length
        then (true, data.filter (fun item => getKey item "id" ≠ some (JVal.str tid)))
        else (false, data)).2
      = data.filter (fun item => getKey item "id" ≠ some (JVal.str tid))
  by_cases hlt : (data.filter
      (fun item => getKey item "id" ≠ some (JVal.str tid))).length < data.length
  · rw [if_pos hlt]
  · rw [if_neg hlt]
    exact ((List.filter_sublist data).eq_of_length_le (Nat.le_of_not_lt hlt)).symm

theorem delete_fst_iff (data : List Record) (tid : String) :
    (TaskStorage.delete data tid).1 = true
      ↔ ∃ r ∈ data, getKey r "id" = some (JVal.str tid) := by
  show (if (data.filter (fun item => getKey item "id" ≠ some (JVal.str tid))).length
          < data.length
        then (true, data.filter (fun item => getKey item "id" ≠ some (JVal.str tid)))
        else (false, data)).1 = true ↔ _
  have hiff := filter_length_lt_iff data
    (fun item => getKey item "id" ≠ some (JVal.str tid))
  by_cases hlt : (data.filter
      (fun item => getKey item "id" ≠ some (JVal.str tid))).length < data.length
  · rw [if_pos hlt]
    simp only [true_iff]
    obtain ⟨a, ha, hpa⟩ := hiff.mp hlt
    exact ⟨a, ha, by simpa using hpa⟩
  · rw [if_neg hlt]
    constructor
    · intro h; cases h
    · intro ⟨a, ha, hpa⟩
      exact absurd (hiff.mpr ⟨a, ha, by simp [hpa]⟩) hlt

theorem user_delete_snd_eq_filter (data : List UserRec) (name : String) :
    (UserStorage.delete data name).2 = data.filter (fun u => u.username ≠ name) := by
  show (if (data.filter (fun u => u.username ≠ name)).length < data.length
        then (true, data.filter (fun u => u.username ≠ name))
        else (false, data)).2 = data.filter (fun u => u.username ≠ name)
  by_cases hlt : (data.filter (fun u => u.username ≠ name)).length < data.length
  · rw [if_pos hlt]
  · rw [if_neg hlt]
    exact ((List.filter_sublist data).eq_of_length_le (Nat.le_of_not_lt hlt)).symm

theorem user_delete_fst_iff (data : List UserRec) (name : String) :
    (UserStorage.delete data name).1 = true ↔ ∃ u ∈ data, u.username = name := by
  show (if (data.filter (fun u => u.username ≠ name)).length < data.length
        then (true, data.filter (fun u => u.username ≠ name))
        else (false, data)).1 = true ↔ _
  have hiff := filter_length_lt_iff data (fun u => u.username ≠ name)
  by_cases hlt : (data.filter (fun u => u.username ≠ name)).length < data.length
  · rw [if_pos hlt]
    simp only [true_iff]
    obtain ⟨a, ha, hpa⟩ := hiff.mp hlt
    exact ⟨a, ha, by simpa using hpa⟩
  · rw [if_neg hlt]
    constructor
    · intro h; cases h
    · intro ⟨a, ha, hpa⟩
      exact absurd (hiff.mpr ⟨a, ha, by simp [hpa]⟩) hlt

theorem foldl_boardInsert (tasks : List Record) :
    ∀ (board : List (String × List Record)),
    tasks.foldl boardInsert board =
      board.map (fun p =>
        (p.1, p.2 ++ tasks.filter (fun t => getKey t "column" = some (JVal.str p.1)))) := by
  induction tasks with
  | nil =>
      intro board
      simp
  | cons t rest ih =>
      intro board
      rw [List.foldl_cons, ih]
      unfold boardInsert
      rw [List.map_map]
      apply List.map_congr_left
      intro p _
      simp only [Function.comp]
      by_cases h : getKey t "column" = some (JVal.str p.1)
      · simp [h, List.filter_cons, List.append_assoc]
      · simp [h, List.filter_cons]

/-! ### Claim theorems -/

/-- Claim C3: for every file state, load on the document store returns an
empty collection whenever the backing file is missing or its contents
fail to deserialize, and returns the full persisted sequence of records
when deserialization succeeds. -/
theorem claim_C3_load_resilience :
    readData FileState.missing = [] ∧ readData FileState.corrupt = []
      ∧ ∀ data : List Record, readData (FileState.good data) = data :=
  ⟨rfl, rfl, fun _ => rfl⟩

/-- Claim C7: for every task id, column and position value (including
absent), move(id, column, position) produces exactly the same store state
and return value as an update restricted to the column field, and the
position argument has no effect on the result. -/
theorem claim_C7_move_is_update_column :
    ∀ (data : List Record) (tid column : String) (position : Option Int) (now : String),
      TaskStorage.move data tid column position now
          = TaskStorage.update data tid [("column", JVal.str column)] now
        ∧ ∀ position' : Option Int,
            TaskStorage.move data tid column position now
              = TaskStorage.move data tid column position' now :=
  fun _ _ _ _ _ => ⟨rfl, fun _ => rfl⟩

/-- Claim C9: for every task id not present in the store and every
partial-update map, update returns the not-found value none rather than
throwing, and the persisted collection is left completely unchanged. -/
theorem claim_C9_update_notfound_no_write :
    ∀ (data : List Record) (tid : String) (ups : List (String × JVal)) (now : String),
      (∀ r ∈ data, getKey r "id" ≠ some (JVal.str tid)) →
      TaskStorage.update data tid ups now = (none, data) := by
  intro data tid ups now h
  unfold TaskStorage.update
  rw [updateFind_eq_none h]

/-- Witness for C9 at a concrete store and absent id. -/
theorem claim_C9_witness :
    TaskStorage.update [demoTask] "zzz" [("title", JVal.str "X")] "t1"
      = (none, [demoTask]) :=
  claim_C9_update_notfound_no_write [demoTask] "zzz" [("title", JVal.str "X")] "t1"
    (by decide)

/-- Claim C8: delete removes the matching record and returns true when the
id is present; it returns false without signalling an error when the id is
absent; hence deleting an existing task twice returns true then false. -/
theorem claim_C8_delete_semantics :
    ∀ (data : List Record) (tid : String),
      (TaskStorage.delete data tid).2
          = data.filter (fun r => getKey r "id" ≠ some (JVal.str tid))
        ∧ ((TaskStorage.delete data tid).1 = true
            ↔ ∃ r ∈ data, getKey r "id" = some (JVal.str tid))
        ∧ (∀ r ∈ (TaskStorage.delete data tid).2,
            getKey r "id" ≠ some (JVal.str tid))
        ∧ (TaskStorage.delete (TaskStorage.delete data tid).2 tid).1 = false := by
  intro data tid
  refine ⟨delete_snd_eq_filter data tid, delete_fst_iff data tid, ?_, ?_⟩
  · intro r hr
    rw [delete_snd_eq_filter] at hr
    simpa using (List.mem_filter.mp hr).2
  · cases hb : (TaskStorage.delete (TaskStorage.delete data tid).2 tid).1
    · rfl
    · exfalso
      obtain ⟨r, hr, hid⟩ := (delete_fst_iff _ tid).mp hb
      rw [delete_snd_eq_filter] at hr
      have := (List.mem_filter.mp hr).2
      simp [hid] at this

/-- Witness for C8: on a one-task store, deleting the task's id returns
true and deleting it again returns false. -/
theorem claim_C8_witness :
    (TaskStorage.delete [demoTask] "a").1 = true
      ∧ (TaskStorage.delete (TaskStorage.delete [demoTask] "a").2 "a").1 = false :=
  ⟨(claim_C8_delete_semantics [demoTask] "a").2.1.mpr
      ⟨demoTask, List.mem_cons_self _ _, by decide⟩,
   (claim_C8_delete_semantics [demoTask] "a").2.2.2⟩

/-- Claim C2: applying a partial-update map to a stored task changes
exactly the fields the map binds to non-nil values (an explicitly empty
string still overwrites), leaves every field that is absent or bound to
nil at its prior value, refreshes updated_at, and leaves all other stored
records untouched. -/
theorem claim_C2_merge_semantics
    (pre post : List Record) (t : Record) (tid now : String)
    (ups : List (String × JVal))
    (hpre : ∀ r ∈ pre, getKey r "id" ≠ some (JVal.str tid))
    (ht : getKey t "id" = some (JVal.str tid))
    (hnodup : (ups.map Prod.fst).Nodup) :
    ∃ t', TaskStorage.update (pre ++ t :: post) tid ups now
        = (some t', pre ++ t' :: post)
      ∧ (∀ k v, k ≠ "updated_at" → (k, v) ∈ ups → v ≠ JVal.null →
          getKey t' k = some v)
      ∧ (∀ k, k ≠ "updated_at" → (∀ v, (k, v) ∈ ups → v = JVal.null) →
          getKey t' k = getKey t k)
      ∧ getKey t' "updated_at" = some (JVal.str now) := by
  refine ⟨setKey (applyUpdates t ups) "updated_at" (JVal.str now), ?_, ?_, ?_, ?_⟩
  · unfold TaskStorage.update
    rw [updateFind_found ht pre hpre post]
  · intro k v hk hmem hv
    rw [getKey_setKey, if_neg hk, getKey_applyUpdates]
    simp [updVal_eq_some_of_mem hnodup hmem hv]
  · intro k hk hnull
    rw [getKey_setKey, if_neg hk, getKey_applyUpdates]
    simp [updVal_eq_none_of_null hnull]
  · rw [getKey_setKey]
    simp

/-- Witness for C2: an update binding only the title field, applied to a
concrete one-task store. -/
theorem claim_C2_witness :
    ∃ t', TaskStorage.update ([] ++ demoTask :: []) "a" [("title", JVal.str "X")] "t1"
        = (some t', [] ++ t' :: [])
      ∧ (∀ k v, k ≠ "updated_at" → (k, v) ∈ [("title", JVal.str "X")] →
          v ≠ JVal.null → getKey t' k = some v)
      ∧ (∀ k, k ≠ "updated_at" →
          (∀ v, (k, v) ∈ [("title", JVal.str "X")] → v = JVal.null) →
          getKey t' k = getKey demoTask k)
      ∧ getKey t' "updated_at" = some (JVal.str "t1") :=
  claim_C2_merge_semantics [] [] demoTask "a" "t1" [("title", JVal.str "X")]
    (by simp) (by decide) (by decide)

/-- Claim C6 counterexample: contrary to the claim that no repository
operation with an arbitrary field map changes a stored task's id, the
storage-level update applies any non-nil binding, including one for the
id key: updating task a with a map binding id to b leaves the store with
no task a and a task b instead. -/
theorem claim_C6_counterexample :
    TaskStorage.get_by_id
        (TaskStorage.update [demoTask] "a" [("id", JVal.str "b")] "t1").2 "a" = none
      ∧ (TaskStorage.get_by_id
          (TaskStorage.update [demoTask] "a" [("id", JVal.str "b")] "t1").2 "b").isSome
        = true := by
  decide

/-- Claim C6 (amended): a stored task's id is unchanged by every update
whose field map binds id, if at all, only to nil — which covers every map
derived from the API's TaskUpdate model, since that model has no id
field — and create preserves pairwise-distinct ids whenever the created
task's id is not already present, as with the fresh UUID generated at
creation. -/
theorem claim_C6_id_stability :
    (∀ (data : List Record) (tid now : String) (ups : List (String × JVal)),
        (∀ v, ("id", v) ∈ ups → v = JVal.null) →
        idsOf (TaskStorage.update data tid ups now).2 = idsOf data)
      ∧ ∀ (data : List Record) (task : Record),
          getKey task "id" ∉ idsOf data → (idsOf data).Nodup →
          (idsOf (TaskStorage.create data task).2).Nodup := by
  constructor
  · intro data tid now ups hid
    unfold TaskStorage.update
    cases hfind : TaskStorage.updateFind tid ups now data with
    | none => rfl
    | some p =>
        obtain ⟨t', data'⟩ := p
        simpa using updateFind_idsOf hid hfind
  · intro data task hnotin hnodup
    unfold TaskStorage.create
    simp only [idsOf, List.map_append, List.map_cons, List.map_nil]
    rw [List.nodup_append]
    refine ⟨hnodup, List.nodup_singleton _, ?_⟩
    intro a ha hb
    simp only [List.mem_singleton] at hb
    subst hb
    exact hnotin ha

/-- Witness for the amended C6 at concrete inputs: a title-only update
keeps the stored ids, and creating a task with a fresh id keeps the ids
pairwise distinct. -/
theorem claim_C6_witness :
    idsOf (TaskStorage.update [demoTask] "a" [("title", JVal.str "X")] "t1").2
        = idsOf [demoTask]
      ∧ (idsOf (TaskStorage.create [demoTask] demoTaskB).2).Nodup :=
  ⟨claim_C6_id_stability.1 [demoTask] "a" "t1" [("title", JVal.str "X")]
      (fun v hv => by simp at hv),
   claim_C6_id_stability.2 [demoTask] demoTaskB (by decide) (by decide)⟩

/-- Claim C5: the user repository's listAll returns every stored user;
update performs a full-record replace keyed by username, replacing exactly
the records with matching username and touching no other; delete removes
exactly the matching records and returns true iff one existed. -/
theorem claim_C5_user_repository :
    ∀ (data : List UserRec) (user : UserRec) (name : String),
      UserStorage.list_all data = data
        ∧ (UserStorage.update data user).length = data.length
        ∧ (∀ u ∈ data, u.username ≠ user.username → u ∈ UserStorage.update data user)
        ∧ (∀ u ∈ UserStorage.update data user,
            u = user ∨ (u ∈ data ∧ u.username ≠ user.username))
        ∧ ((∃ u ∈ data, u.username = user.username) →
            user ∈ UserStorage.update data user)
        ∧ (UserStorage.delete data name).2 = data.filter (fun u => u.username ≠ name)
        ∧ ((UserStorage.delete data name).1 = true ↔ ∃ u ∈ data, u.username = name) := by
  intro data user name
  refine ⟨rfl, by simp [UserStorage.update], ?_, ?_, ?_,
    user_delete_snd_eq_filter data name, user_delete_fst_iff data name⟩
  · intro u hu hne
    have h : (fun x => if x.username = user.username then user else x) u = u := by
      simp [hne]
    exact List.mem_map.mpr ⟨u, hu, h⟩
  · intro u hu
    obtain ⟨a, ha, hau⟩ := List.mem_map.mp hu
    by_cases h : a.username = user.username
    · left
      rw [← hau]
      simp [h]
    · right
      rw [← hau]
      simp only [if_neg h]
      exact ⟨ha, h⟩
  · intro ⟨u, hu, huname⟩
    have h : (fun x => if x.username = user.username then user else x) u = user := by
      simp [huname]
    exact List.mem_map.mpr ⟨u, hu, h⟩

/-- Witness for C5 at a concrete two-user store: replacing alice's record
keeps the replacement in the store, and deleting bob reports removal. -/
theorem claim_C5_witness :
    demoUser2 ∈ UserStorage.update [demoUser, demoUserB] demoUser2
      ∧ (UserStorage.delete [demoUser, demoUserB] "bob").1 = true :=
  ⟨(claim_C5_user_repository [demoUser, demoUserB] demoUser2 "bob").2.2.2.2.1
      ⟨demoUser, by decide, by decide⟩,
   (claim_C5_user_repository [demoUser, demoUserB] demoUser2 "bob").2.2.2.2.2.2.mpr
      ⟨demoUserB, by decide, by decide⟩⟩

/-- Claim C10: the board view has exactly one key per configured column,
each present even when empty; each bucket holds exactly the tasks whose
column equals its key, so a task with a configured column appears exactly
once, under that key; a task whose column is not configured appears in no
bucket at all. -/
theorem claim_C10_board_partition :
    ∀ tasks : List Record,
      ((getBoard tasks).map Prod.fst = COLUMNS)
        ∧ (∀ p ∈ getBoard tasks,
            p.2 = tasks.filter (fun t => getKey t "column" = some (JVal.str p.1)))
        ∧ (∀ t ∈ tasks, (∀ c ∈ COLUMNS, getKey t "column" ≠ some (JVal.str c)) →
            ∀ p ∈ getBoard tasks, t ∉ p.2) := by
  intro tasks
  have hb : getBoard tasks = COLUMNS.map (fun c =>
      (c, tasks.filter (fun t => getKey t "column" = some (JVal.str c)))) := by
    unfold getBoard
    rw [foldl_boardInsert, List.map_map]
    rfl
  refine ⟨?_, ?_, ?_⟩
  · rw [hb, List.map_map]
    rfl
  · intro p hp
    rw [hb] at hp
    obtain ⟨c, _, hpc⟩ := List.mem_map.mp hp
    subst hpc
    rfl
  · intro t _ hnc p hp htp
    have hp1 : p.1 ∈ COLUMNS := by
      rw [hb] at hp
      obtain ⟨c, hc, hpc⟩ := List.mem_map.mp hp
      subst hpc
      exact hc
    have h2 : p.2 = tasks.filter (fun x => getKey x "column" = some (JVal.str p.1)) := by
      rw [hb] at hp
      obtain ⟨c, _, hpc⟩ := List.mem_map.mp hp
      subst hpc
      rfl
    rw [h2] at htp
    exact hnc p.1 hp1 (by simpa using (List.mem_filter.mp htp).2)

/-- Witness for C10: on a store holding one task whose column is not
configured, the board still has exactly the configured keys and the stray
task is omitted from the Recurring bucket (as from every bucket). -/
theorem claim_C10_witness :
    (getBoard [demoTaskBogus]).map Prod.fst = COLUMNS
      ∧ demoTaskBogus ∉ (("Recurring", ([] : List Record))).2 :=
  ⟨(claim_C10_board_partition [demoTaskBogus]).1,
   (claim_C10_board_partition [demoTaskBogus]).2.2 demoTaskBogus (by decide)
      (by decide) ("Recurring", []) (by decide)⟩

/-- Claim C4 divergence: the categories route computes its listing from
the task collection alone, so with stored category name Stored and a task
whose category is FromTask the route returns only FromTask, while the
spec's effective listing (the union with the explicitly stored names,
de-duplicated and sorted) also contains Stored — the behaviour the
repository's own test for the categories endpoint asserts. -/
theorem claim_C4_categories_divergence :
    getCategories [demoTask] = ["FromTask"]
      ∧ CategoryStorage.get_all ["Stored"] = ["Stored"]
      ∧ effectiveCategoriesSpec ["Stored"] [demoTask] = ["FromTask", "Stored"]
      ∧ "Stored" ∉ getCategories [demoTask] := by
  decide

/-- Claim C1 divergence: the store's lock is held separately for the read
and for the write of a mutating operation, not across the whole
load-modify-save cycle, so the interleaving in which both threads read
before either writes loses the first thread's update.  Concretely: under
both serial schedules the two concurrent retitles of tasks a and b both
persist, but under the read-read-write-write interleaving both threads
run to completion yet task a keeps its old title — a lost update the
claimed single critical section would make impossible. -/
theorem claim_C1_lost_update :
    (titleOf (runSched demoOp1 demoOp2 [demoTask, demoTaskB]
          [false, false, true, true]).file "a" = some (JVal.str "new-a")
      ∧ titleOf (runSched demoOp1 demoOp2 [demoTask, demoTaskB]
          [false, false, true, true]).file "b" = some (JVal.str "new-b"))
      ∧ (titleOf (runSched demoOp1 demoOp2 [demoTask, demoTaskB]
            [true, true, false, false]).file "a" = some (JVal.str "new-a")
        ∧ titleOf (runSched demoOp1 demoOp2 [demoTask, demoTaskB]
            [true, true, false, false]).file "b" = some (JVal.str "new-b"))
      ∧ ((runSched demoOp1 demoOp2 [demoTask, demoTaskB]
            [false, true, false, true]).t1 = Phase.finished
        ∧ (runSched demoOp1 demoOp2 [demoTask, demoTaskB]
            [false, true, false, true]).t2 = Phase.finished
        ∧ titleOf (runSched demoOp1 demoOp2 [demoTask, demoTaskB]
            [false, true, false, true]).file "a" = some (JVal.str "T")
        ∧ titleOf (runSched demoOp1 demoOp2 [demoTask, demoTaskB]
            [false, true, false, true]).file "b" = some (JVal.str "new-b")) := by
  decide

end Kanban
